import Mathlib

/-!
Verification of the check-in storage and reminder scheduling modules of the
`checkin` application. The two modules (`checkinStorage` and
`reminderStorage`) are shallowly embedded: the persistence collaborator
(AsyncStorage) is modelled by the stored value under the module's single key,
JavaScript values read from storage are modelled by a JSON value type, and the
notification platform is modelled by an explicit state (scheduled requests,
permission flag, fresh-identifier counter). JavaScript numbers are modelled by
`Rat` (JSON numbers are always finite), JavaScript `Date` values at local-day
granularity by `Option Int` (a local calendar day counted from 1970-01-01,
with `none` for an Invalid Date, whose comparisons are all false as for NaN).
-/

/-- Model of the JavaScript string comparison used by
`a.localeCompare(b)` in the sort comparators of the source: lexicographic
comparison of the code points. On date-key strings (ASCII digits and dashes)
the locale comparison used by the source agrees with code-point order. -/
def charListLE : List Char → List Char → Bool
  | [], _ => true
  | _ :: _, [] => false
  | a :: as, b :: bs =>
    if a.toNat < b.toNat then true
    else if b.toNat < a.toNat then false
    else charListLE as bs

/-- String comparison `a.localeCompare(b) <= 0` used by the source's sort
comparators, modelled as code-point order (see `charListLE`). -/
def keyLE (a b : String) : Bool := charListLE a.data b.data

/-- Model of a parsed JSON value (the result of a successful `JSON.parse`). -/
inductive JsonVal where
  | null
  | bool (b : Bool)
  | num (q : Rat)
  | str (s : String)
  | arr (items : List JsonVal)
  | obj (fields : List (String × JsonVal))

/-- Model of a raw string held in AsyncStorage: either a string on which
`JSON.parse` throws (`junk`), or one that parses to a JSON value. -/
inductive Raw where
  | junk
  | json (v : JsonVal)

/-- Property lookup on a JavaScript object's field list. `JSON.parse` keeps
the last occurrence of a duplicated key, hence `getLast?`. -/
def lookupField (fields : List (String × JsonVal)) (k : String) : Option JsonVal :=
  ((fields.filter (fun p => p.1 == k)).map (fun p => p.2)).getLast?

/-- Property access `v[k]` on an arbitrary JavaScript value: fields of an
object, `undefined` (`none`) on any primitive or array. Access on `null`
throws instead; callers of this model handle `JsonVal.null` separately. -/
def getField (v : JsonVal) (k : String) : Option JsonVal :=
  match v with
  | .obj fields => lookupField fields k
  | _ => none

/-- Model of JavaScript `Boolean(x)` for `x` a possibly-undefined JSON value
(`none` is `undefined`). JSON numbers are never NaN, so a number is truthy
exactly when it is nonzero. -/
def jsTruthy : Option JsonVal → Bool
  | none => false
  | some .null => false
  | some (.bool b) => b
  | some (.num q) => !(q == 0)
  | some (.str s) => !(s == "")
  | some (.arr _) => true
  | some (.obj _) => true

/-- The `DailyCheckin` record type of `checkinStorage`. -/
structure DailyCheckin where
  dateKey : String
  energy : Rat
  mood : Rat
  focus : Rat
  updatedAt : Rat
deriving DecidableEq, Repr

/-- JSON encoding of a `DailyCheckin`, with the field order of the object
literal built in `upsertTodayCheckin`. -/
def encodeCheckin (c : DailyCheckin) : JsonVal :=
  .obj [("dateKey", .str c.dateKey), ("energy", .num c.energy), ("mood", .num c.mood),
        ("focus", .num c.focus), ("updatedAt", .num c.updatedAt)]

/-- The element validation performed by the filter inside `loadAllCheckins`:
an element passes exactly when it is an object whose five required fields all
exist with the required primitive types; the passing element is kept as a
`DailyCheckin`. Arrays and primitives have none of the looked-up fields, so
they fail the `typeof` checks just as in the source. -/
def asCheckin (v : JsonVal) : Option DailyCheckin :=
  match v with
  | .obj fields =>
    match lookupField fields "dateKey", lookupField fields "energy", lookupField fields "mood",
          lookupField fields "focus", lookupField fields "updatedAt" with
    | some (.str dk), some (.num e), some (.num mo), some (.num fo), some (.num up) =>
      some ⟨dk, e, mo, fo, up⟩
    | _, _, _, _, _ => none
  | _ => none

/-- The comparator `(a, b) => a.dateKey.localeCompare(b.dateKey)` as a
boolean "less or equal" relation. -/
def dateKeyLE (a b : DailyCheckin) : Bool := keyLE a.dateKey b.dateKey

/-- Model of `.sort((a, b) => a.dateKey.localeCompare(b.dateKey))`.
JavaScript `Array.prototype.sort` is required to be stable, so any stable
sorting algorithm with the same comparator computes it; we use `mergeSort`. -/
def sortByDateKey (l : List DailyCheckin) : List DailyCheckin := l.mergeSort dateKeyLE

/-- The function `loadAllCheckins` of `checkinStorage`, as a function of the
value stored under `checkin:daily-v1`: empty on a missing or unparseable
value or a non-array JSON document, else the validated elements sorted
ascending by `dateKey`. -/
def loadAllCheckins (store : Option Raw) : List DailyCheckin :=
  match store with
  | some (.json (.arr items)) => sortByDateKey (items.filterMap asCheckin)
  | _ => []

/-- JSON serialization of a checkin collection (`JSON.stringify` of the
array). -/
def encodeCheckins (l : List DailyCheckin) : Raw :=
  .json (.arr (l.map encodeCheckin))

/-- The function `saveAllCheckins` of `checkinStorage`: sorts ascending by
`dateKey` and serializes. The result is the value written to storage. -/
def saveAllCheckins (checkins : List DailyCheckin) : Raw :=
  encodeCheckins (sortByDateKey checkins)

/-- The function `loadCheckinForDate` of `checkinStorage`. -/
def loadCheckinForDate (dateKey : String) (store : Option Raw) : Option DailyCheckin :=
  (loadAllCheckins store).find? (fun c => c.dateKey == dateKey)

/-- Days from the civil epoch 1970-01-01 of the calendar date given by year
`y`, month `m` (1 to 12) and day `d`; the standard civil-calendar day-number
computation, used to model JavaScript local `Date` values at day
granularity. -/
def daysFromCivil (y m d : Int) : Int :=
  let y2 := y - (if m ≤ 2 then 1 else 0)
  let era := y2.fdiv 400
  let yoe := y2 - era * 400
  let mp := (m + 9).emod 12
  let doy := (153 * mp + 2).fdiv 5 + d - 1
  let doe := yoe * 365 + yoe.fdiv 4 - yoe.fdiv 100 + doy
  era * 146097 + doe - 719468

/-- Inverse of `daysFromCivil`: the civil year, month (1 to 12) and day of a
day number; models the `getFullYear`, `getMonth` (plus one) and `getDate`
accessors of a local `Date` at midnight. -/
def civilFromDays (z : Int) : Int × Int × Int :=
  let z2 := z + 719468
  let era := z2.fdiv 146097
  let doe := z2 - era * 146097
  let yoe := (doe - doe.fdiv 1460 + doe.fdiv 36524 - doe.fdiv 146096).fdiv 365
  let y := yoe + era * 400
  let doy := doe - (365 * yoe + yoe.fdiv 4 - yoe.fdiv 100)
  let mp := (5 * doy + 2).fdiv 153
  let d := doy - (153 * mp + 2).fdiv 5 + 1
  let m := mp + (if mp < 10 then 3 else -9)
  (y + (if m ≤ 2 then 1 else 0), m, d)

/-- Model of the JavaScript constructor `new Date(y, monthIndex, day)` with
integral arguments, at local-day granularity: years 0 to 99 are interpreted
as 1900 to 1999, and out-of-range month indices and days roll over. -/
def jsMakeDay (y m d : Int) : Int :=
  let yr := if 0 ≤ y ∧ y ≤ 99 then 1900 + y else y
  let ym := yr + m.fdiv 12
  let mn := m.emod 12
  daysFromCivil ym (mn + 1) 1 + (d - 1)

/-- Model of `String(n).padStart(2, '0')`'s padding step for a target length
of two. -/
def padStart2 (s : String) : String :=
  if s.length ≥ 2 then s else if s.length = 1 then "0" ++ s else "00"

/-- The function `getLocalDateKey` of `checkinStorage` as a function of the
local calendar day (`getFullYear`, `getMonth() + 1` and `getDate` of the
argument date are the civil components of its local day). -/
def getLocalDateKey (day : Int) : String :=
  let c := civilFromDays day
  toString c.1 ++ "-" ++ padStart2 (toString c.2.1) ++ "-" ++ padStart2 (toString c.2.2)

/-- Accumulator recursion for `jsSplitDash`. -/
def splitDashAux : List Char → List Char → List (List Char)
  | [], acc => [acc.reverse]
  | c :: cs, acc =>
    if c = '-' then acc.reverse :: splitDashAux cs [] else splitDashAux cs (c :: acc)

/-- Model of JavaScript `s.split('-')`: splits at every dash, keeping empty
pieces, with `[""]` for the empty string. -/
def jsSplitDash (s : String) : List String :=
  (splitDashAux s.data []).map List.asString

/-- A JavaScript number as produced by `Number(string)`: NaN, an infinity,
or a finite value. Finite values carry their exact mathematical value; the
numbers reaching date construction in this program are small integers, on
which the float64 representation is exact. -/
inductive JsNum where
  | nan
  | posInf
  | negInf
  | val (q : Rat)
deriving DecidableEq, Repr

/-- The characters stripped by `Number(string)` before conversion: the
ECMAScript StrWhiteSpaceChar set (WhiteSpace with the Unicode Zs category,
and LineTerminator). -/
def jsWhitespace (c : Char) : Bool :=
  c.toNat == 0x9 || c.toNat == 0xA || c.toNat == 0xB || c.toNat == 0xC ||
  c.toNat == 0xD || c.toNat == 0x20 || c.toNat == 0xA0 || c.toNat == 0x1680 ||
  (0x2000 ≤ c.toNat && c.toNat ≤ 0x200A) ||
  c.toNat == 0x2028 || c.toNat == 0x2029 || c.toNat == 0x202F ||
  c.toNat == 0x205F || c.toNat == 0x3000 || c.toNat == 0xFEFF

/-- Leading and trailing StrWhiteSpaceChar stripping of `Number(string)`. -/
def trimJs (l : List Char) : List Char :=
  ((l.dropWhile jsWhitespace).reverse.dropWhile jsWhitespace).reverse

/-- Value of a string of decimal digits. -/
def decDigitsVal (l : List Char) : Nat :=
  l.foldl (fun n c => n * 10 + (c.toNat - 48)) 0

/-- Digit value in the given radix, for the hexadecimal, octal and binary
integer literals of `Number(string)`. -/
def radixDigitVal (radix : Nat) (c : Char) : Option Nat :=
  let v : Option Nat :=
    if '0' ≤ c ∧ c ≤ '9' then some (c.toNat - 48)
    else if 'a' ≤ c ∧ c ≤ 'f' then some (c.toNat - 87)
    else if 'A' ≤ c ∧ c ≤ 'F' then some (c.toNat - 55)
    else none
  match v with
  | some d => if d < radix then some d else none
  | none => none

/-- A nonempty all-digits string in the given radix converts to its value;
anything else is NaN. -/
def parseRadix (radix : Nat) (ds : List Char) : JsNum :=
  if ds = [] then .nan
  else
    match ds.mapM (radixDigitVal radix) with
    | some vs => .val ((vs.foldl (fun n d => n * radix + d) 0 : Nat) : Rat)
    | none => .nan

/-- Splits a literal at its first exponent marker `e` or `E`. -/
def splitAtExp : List Char → List Char × Option (List Char)
  | [] => ([], none)
  | c :: cs =>
    if c = 'e' ∨ c = 'E' then ([], some cs)
    else
      let r := splitAtExp cs
      (c :: r.1, r.2)

/-- Splits a mantissa at its first decimal point. -/
def splitAtDot : List Char → List Char × Option (List Char)
  | [] => ([], none)
  | c :: cs =>
    if c = '.' then ([], some cs)
    else
      let r := splitAtDot cs
      (c :: r.1, r.2)

/-- The optionally signed nonempty digit string of an ExponentPart; `none`
when the literal has a marker but the part is malformed. -/
def parseExpPart : Option (List Char) → Option Int
  | none => some 0
  | some [] => none
  | some ('+' :: ds) =>
    if ds ≠ [] ∧ ds.all Char.isDigit then some (decDigitsVal ds) else none
  | some ('-' :: ds) =>
    if ds ≠ [] ∧ ds.all Char.isDigit then some (-(decDigitsVal ds : Int)) else none
  | some ds =>
    if ds.all Char.isDigit then some (decDigitsVal ds) else none

/-- An unsigned StrDecimalLiteral without the Infinity form:
`digits [. digits] [exp]` or `. digits [exp]`, valued
`mantissa * 10 ^ (exponent - fraction length)`. -/
def parseDecimal (t : List Char) : JsNum :=
  let me := splitAtExp t
  match parseExpPart me.2 with
  | none => .nan
  | some e =>
    let ifr := splitAtDot me.1
    let fp := ifr.2.getD []
    if ifr.1.all Char.isDigit ∧ fp.all Char.isDigit ∧ (ifr.1 ≠ [] ∨ fp ≠ []) then
      let n : Nat := decDigitsVal (ifr.1 ++ fp)
      let net : Int := e - fp.length
      if 0 ≤ net then .val ((n * 10 ^ net.toNat : Nat) : Rat)
      else .val (mkRat n (10 ^ (-net).toNat))
    else .nan

/-- An unsigned decimal literal or the literal `Infinity`. -/
def parseDecOrInf (t : List Char) : JsNum :=
  if t = ['I', 'n', 'f', 'i', 'n', 'i', 't', 'y'] then .posInf else parseDecimal t

/-- An unsigned StrNumericLiteral: hexadecimal, octal and binary forms (on
which a sign is not allowed), else a decimal literal or `Infinity`. -/
def parseUnsigned (t : List Char) : JsNum :=
  match t with
  | '0' :: c :: rest =>
    if c = 'x' ∨ c = 'X' then parseRadix 16 rest
    else if c = 'o' ∨ c = 'O' then parseRadix 8 rest
    else if c = 'b' ∨ c = 'B' then parseRadix 2 rest
    else parseDecOrInf t
  | _ => parseDecOrInf t

/-- Negation of a JavaScript number. -/
def negJs : JsNum → JsNum
  | .nan => .nan
  | .posInf => .negInf
  | .negInf => .posInf
  | .val q => .val (-q)

/-- Model of JavaScript `Number(string)` following the StringNumericLiteral
grammar: whitespace is trimmed, the empty remainder converts to 0, an
optional sign precedes `Infinity` or a decimal literal with optional
fraction and exponent, an unsigned hexadecimal, octal or binary literal is
accepted, and everything else converts to NaN. -/
def jsNumber (s : String) : JsNum :=
  let t := trimJs s.data
  if t = [] then .val 0
  else
    match t with
    | '+' :: rest => parseDecOrInf rest
    | '-' :: rest => negJs (parseDecOrInf rest)
    | _ => parseUnsigned t

/-- Model of JavaScript `Math.trunc` on a finite number, which is also the
ToIntegerOrInfinity conversion that `MakeDay` applies to each finite `Date`
constructor argument: rounding toward zero. -/
def ratTrunc (q : Rat) : Int := q.num.tdiv (q.den : Int)

/-- Subtraction of one on a JavaScript number, the `(m ?? 1) - 1` step of
the parser: NaN and the infinities absorb it; on a finite value it is
subtraction by one, computed as `(num - den) / den` (see `jsSubOne_val`). -/
def jsSubOne : JsNum → JsNum
  | .nan => .nan
  | .posInf => .posInf
  | .negInf => .negInf
  | .val q => .val (mkRat (q.num - (q.den : Int)) q.den)

/-- Model of the `Date` constructor applied to three JavaScript numbers, at
local-day granularity: a NaN or infinite argument yields an Invalid Date;
finite arguments are truncated toward zero (ToIntegerOrInfinity in MakeDay
and MakeFullYear) and handed to the integral constructor model. -/
def jsMakeDayNum : JsNum → JsNum → JsNum → Option Int
  | .val y, .val m, .val d => some (jsMakeDay (ratTrunc y) (ratTrunc m) (ratTrunc d))
  | _, _, _ => none

/-- The function `localDateFromDateKey` (identical in `checkinStorage` and
the summary screen): splits the key on dashes, converts the segments with
`Number`, and builds `new Date(y, (m ?? 1) - 1, d ?? 1)`. The `?? 1`
defaults apply only when the segment is missing (`undefined`); a NaN or
infinite segment propagates to an Invalid Date (`none`). -/
def localDateFromDateKey (dateKey : String) : Option Int :=
  let parts := (jsSplitDash dateKey).map jsNumber
  let y : JsNum :=
    match parts.get? 0 with
    | none => JsNum.nan
    | some v => v
  let m : JsNum :=
    match parts.get? 1 with
    | none => JsNum.val 0
    | some v => jsSubOne v
  let d : JsNum :=
    match parts.get? 2 with
    | none => JsNum.val 1
    | some v => v
  jsMakeDayNum y m d

/-- JavaScript `date >= cutoff` on a possibly invalid date: comparisons with
an Invalid Date (NaN time value) are false. -/
def dateGE (od : Option Int) (cutoff : Int) : Bool :=
  match od with
  | none => false
  | some d => cutoff ≤ d

/-- JavaScript `date < cutoff` on a possibly invalid date: comparisons with
an Invalid Date (NaN time value) are false. -/
def dateLT (od : Option Int) (cutoff : Int) : Bool :=
  match od with
  | none => false
  | some d => d < cutoff

/-- Argument record of `upsertTodayCheckin`; `date` is an optional valid
local date (a local calendar day), `none` meaning the argument was omitted
so that `getLocalDateKey` falls back to the current date. -/
structure UpsertValues where
  energy : Rat
  mood : Rat
  focus : Rat
  date : Option Int

/-- The function `upsertTodayCheckin` of `checkinStorage` as a state
transformer of the stored value; `nowDay` is the current local calendar day
(for `getLocalDateKey()`), `nowMs` the current epoch-millisecond clock
(`Date.now()`). Returns the new record and the value written to storage:
the loaded collection with the record replaced in place or pushed at the
end, serialized without re-sorting. -/
def upsertTodayCheckin (values : UpsertValues) (nowDay : Int) (nowMs : Rat)
    (store : Option Raw) : DailyCheckin × Option Raw :=
  let dateKey := getLocalDateKey (values.date.getD nowDay)
  let all := loadAllCheckins store
  let next : DailyCheckin := ⟨dateKey, values.energy, values.mood, values.focus, nowMs⟩
  let all2 :=
    match all.findIdx? (fun c => c.dateKey == dateKey) with
    | some i => all.set i next
    | none => all ++ [next]
  (next, some (encodeCheckins all2))

/-- The function `clearAllCheckins` of `checkinStorage`: removes the key. -/
def clearAllCheckins (_store : Option Raw) : Option Raw := none

/-- The cutoff computed by `purgeCheckinsOlderThan`: local midnight today,
shifted back by `Math.max(1, days) - 1` days via `setDate`. -/
def purgeCutoff (days today : Int) : Int := today - (max 1 days - 1)

/-- Result of a `purgeCheckinsOlderThan` run: the returned count, the stored
value afterwards, and whether a write to storage was performed. -/
structure PurgeResult where
  removed : Nat
  store : Option Raw
  didWrite : Bool

/-- The function `purgeCheckinsOlderThan` of `checkinStorage` as a state
transformer of the stored value; `today` is the current local calendar
day. -/
def purgeCheckinsOlderThan (days : Int) (today : Int) (store : Option Raw) : PurgeResult :=
  let all := loadAllCheckins store
  if all.length = 0 then ⟨0, store, false⟩
  else
    let cutoff := purgeCutoff days today
    let kept := all.filter (fun c => dateGE (localDateFromDateKey c.dateKey) cutoff)
    if kept.length = all.length then ⟨0, store, false⟩
    else ⟨all.length - kept.length, some (saveAllCheckins kept), true⟩

/-- The function `clampInt` of `reminderStorage`:
`Math.min(max, Math.max(min, Math.trunc(value)))`. -/
def clampInt (value : Rat) (lo hi : Int) : Int := min hi (max lo (ratTrunc value))

/-- The `ReminderSettings` record type of `reminderStorage`. Hour and minute
are JavaScript numbers, hence `Rat`. -/
structure ReminderSettings where
  enabled : Bool
  hour : Rat
  minute : Rat
  notificationId : Option String
deriving DecidableEq, Repr

/-- The defaults returned by `loadReminderSettings` when nothing valid is
stored. -/
def defaultReminderSettings : ReminderSettings := ⟨false, 20, 0, none⟩

/-- The function `loadReminderSettings` of `reminderStorage` as a function
of the value stored under `checkin:reminder-v1`. A stored `null` parses but
throws on the first property access, landing in the same catch branch as a
parse failure. -/
def loadReminderSettings (store : Option Raw) : ReminderSettings :=
  match store with
  | none => defaultReminderSettings
  | some .junk => defaultReminderSettings
  | some (.json .null) => defaultReminderSettings
  | some (.json v) =>
    let hour : Rat :=
      match getField v "hour" with
      | some (.num q) => (clampInt q 0 23 : Int)
      | _ => 20
    let minute : Rat :=
      match getField v "minute" with
      | some (.num q) => (clampInt q 0 59 : Int)
      | _ => 0
    let enabled := jsTruthy (getField v "enabled")
    let nid : Option String :=
      match getField v "notificationId" with
      | some (.str s) => some s
      | _ => none
    ⟨enabled, hour, minute, nid⟩

/-- The tag constant `REMINDER_KIND` of `reminderStorage`. -/
def REMINDER_KIND : String := "checkin:daily-reminder-v1"

/-- The constant `LEGACY_TITLE` of `reminderStorage`. -/
def LEGACY_TITLE : String := "Reminder"

/-- The constant `LEGACY_BODY` of `reminderStorage`. -/
def LEGACY_BODY : String := "Time to add today\x27s track."

/-- Content of a scheduled notification request as consumed by
`reminderStorage`: optional title and body, and the `data` payload object. -/
structure NotificationContent where
  title : Option String
  body : Option String
  data : List (String × JsonVal)

/-- A scheduled notification request on the platform: its identifier, its
content, and its daily trigger time when it has one (`none` for any other
trigger kind). -/
structure NotificationRequest where
  identifier : String
  content : NotificationContent
  trigger : Option (Int × Int)

/-- State of the notification platform collaborator: the scheduled requests,
the permission flag read by `hasReminderPermissions`, and a counter from
which fresh identifiers are produced. -/
structure NotifState where
  scheduled : List NotificationRequest
  granted : Bool
  nextSeq : Nat

/-- The legacy back-compat match inside `isReminderRequest`: exact title and
body equality. -/
def legacyMatch (req : NotificationRequest) : Bool :=
  req.content.title == some LEGACY_TITLE && req.content.body == some LEGACY_BODY

/-- The function `isReminderRequest` of `reminderStorage`: the tagged
`data.kind` match, with the legacy title-and-body fallback. A non-string
`data.kind` fails the strict equality and falls through to the fallback. -/
def isReminderRequest (req : NotificationRequest) : Bool :=
  match lookupField req.content.data "kind" with
  | some (.str s) => if s == REMINDER_KIND then true else legacyMatch req
  | _ => legacyMatch req

/-- Model of `Notifications.cancelScheduledNotificationAsync`: removes every
scheduled request carrying the identifier. -/
def cancelScheduled (id : String) (st : NotifState) : NotifState :=
  { st with scheduled := st.scheduled.filter (fun r => !(r.identifier == id)) }

/-- The function `cancelAllReminders` of `reminderStorage` on a platform
whose list and cancel calls succeed: cancels each matching request by its
identifier and returns how many were cancelled. -/
def cancelAllReminders (st : NotifState) : Nat × NotifState :=
  let toCancel := st.scheduled.filter isReminderRequest
  (toCancel.length, toCancel.foldl (fun s r => cancelScheduled r.identifier s) st)

/-- Fresh identifiers handed out by the platform for newly scheduled
notifications. -/
def freshId (n : Nat) : String := "sched-" ++ toString n

/-- The content scheduled by `scheduleDailyReminder`: fixed title and body
and the tagging payload (the `sound` flag has no bearing on the verified
properties and is omitted). -/
def reminderContent : NotificationContent :=
  ⟨some "Reminder", some "Time to add today\x27s track.", [("kind", .str REMINDER_KIND)]⟩

/-- The function `scheduleDailyReminder` of `reminderStorage`: schedules a
new daily notification at the clamped hour and minute and returns the fresh
identifier (the Android channel setup has no bearing on the verified
properties and is omitted). -/
def scheduleDailyReminder (hour minute : Rat) (st : NotifState) : String × NotifState :=
  let id := freshId st.nextSeq
  let req : NotificationRequest :=
    ⟨id, reminderContent, some (clampInt hour 0 23, clampInt minute 0 59)⟩
  (id, { st with scheduled := st.scheduled ++ [req], nextSeq := st.nextSeq + 1 })

/-- The function `reconcileReminderSchedule` of `reminderStorage` as a state
transformer of the platform state. `reminders[0]?.identifier` is modelled by
the head of the match list; the `if (onlyId && ...)` truthiness test makes
an empty identifier fall through to the unchanged branch. -/
def reconcileReminderSchedule (settings : ReminderSettings) (st : NotifState) :
    ReminderSettings × NotifState :=
  if !settings.enabled then (settings, st)
  else if !st.granted then (settings, st)
  else
    let reminders := st.scheduled.filter isReminderRequest
    if reminders.length == 0 then
      let r := scheduleDailyReminder settings.hour settings.minute st
      ({ settings with notificationId := some r.1 }, r.2)
    else if reminders.length == 1 then
      match reminders.head? with
      | some r0 =>
        if !(r0.identifier == "") && !(some r0.identifier == settings.notificationId) then
          ({ settings with notificationId := some r0.identifier }, st)
        else (settings, st)
      | none => (settings, st)
    else
      let c := cancelAllReminders st
      let r := scheduleDailyReminder settings.hour settings.minute c.2
      ({ settings with notificationId := some r.1 }, r.2)

/-- Checkin records as they sit in storage, in their persisted order (the
decoded valid elements of the stored array, not re-sorted). -/
def persistedCheckins (store : Option Raw) : List DailyCheckin :=
  match store with
  | some (.json (.arr items)) => items.filterMap asCheckin
  | _ => []

/-- The per-date uniqueness invariant of the persisted collection: the valid
stored records have pairwise distinct date keys. -/
def KeysNodup (store : Option Raw) : Prop :=
  ((persistedCheckins store).map DailyCheckin.dateKey).Nodup

/-! ### Basic properties of the comparator model -/

/-- Reflexivity of the code-point comparison. -/
theorem charListLE_refl : ∀ l : List Char, charListLE l l = true
  | [] => rfl
  | a :: as => by simp [charListLE, charListLE_refl as]

/-- Totality of the code-point comparison. -/
theorem charListLE_total : ∀ a b : List Char, charListLE a b || charListLE b a
  | [], _ => by simp [charListLE]
  | _ :: _, [] => by simp [charListLE]
  | a :: as, b :: bs => by
    simp only [charListLE]
    rcases Nat.lt_trichotomy a.toNat b.toNat with h | h | h
    · simp [h]
    · simp only [h, Nat.lt_irrefl, if_false]
      exact charListLE_total as bs
    · simp [h, Nat.lt_asymm h]

/-- Transitivity of the code-point comparison. -/
theorem charListLE_trans : ∀ a b c : List Char,
    charListLE a b = true → charListLE b c = true → charListLE a c = true
  | [], _, _, _, _ => rfl
  | _ :: _, [], _, h1, _ => by simp [charListLE] at h1
  | _ :: _, _ :: _, [], _, h2 => by simp [charListLE] at h2
  | a :: as, b :: bs, c :: cs, h1, h2 => by
    simp only [charListLE] at h1 h2 ⊢
    split_ifs at h1 h2 ⊢ <;>
      first
        | rfl
        | omega
        | (exact charListLE_trans as bs cs h1 h2)

/-- Totality of the record comparator. -/
theorem dateKeyLE_total (a b : DailyCheckin) : dateKeyLE a b || dateKeyLE b a :=
  charListLE_total a.dateKey.data b.dateKey.data

/-- Transitivity of the record comparator. -/
theorem dateKeyLE_trans (a b c : DailyCheckin) :
    dateKeyLE a b → dateKeyLE b c → dateKeyLE a c :=
  charListLE_trans a.dateKey.data b.dateKey.data c.dateKey.data

/-- Records with equal date keys compare both ways. -/
theorem dateKeyLE_of_eq {a b : DailyCheckin} (h : a.dateKey = b.dateKey) :
    dateKeyLE a b = true := by
  simp [dateKeyLE, keyLE, h, charListLE_refl]

/-! ### Serialization round trip and basic shape of the load path -/

/-- Decoding inverts encoding on a single record. -/
theorem asCheckin_encodeCheckin (c : DailyCheckin) : asCheckin (encodeCheckin c) = some c := rfl

/-- Decoding inverts encoding on a collection. -/
theorem filterMap_roundtrip : ∀ l : List DailyCheckin,
    List.filterMap (asCheckin ∘ encodeCheckin) l = l
  | [] => rfl
  | c :: cs => by
    simp only [List.filterMap_cons, Function.comp_apply, asCheckin_encodeCheckin]
    rw [filterMap_roundtrip cs]

/-- Loading a serialized collection yields it sorted by date key. -/
theorem loadAll_encode (l : List DailyCheckin) :
    loadAllCheckins (some (encodeCheckins l)) = sortByDateKey l := by
  simp [loadAllCheckins, encodeCheckins, List.filterMap_map, filterMap_roundtrip]

/-- The persisted records of a serialized collection are the collection. -/
theorem persisted_encode (l : List DailyCheckin) :
    persistedCheckins (some (encodeCheckins l)) = l := by
  simp [persistedCheckins, encodeCheckins, List.filterMap_map, filterMap_roundtrip]

/-- A first match is the head of the filtered list. -/
theorem find?_eq_head?_filter (p : α → Bool) : ∀ l : List α, l.find? p = (l.filter p).head?
  | [] => rfl
  | a :: as => by
    cases h : p a
    · rw [List.find?_cons_of_neg _ (by simp [h]), List.filter_cons_of_neg (by simp [h])]
      exact find?_eq_head?_filter p as
    · rw [List.find?_cons_of_pos _ h, List.filter_cons_of_pos h]
      rfl

/-- Stability of `mergeSort` in filter form: a predicate whose satisfying
elements are pairwise tied under the comparator selects the same
subsequence before and after sorting. -/
theorem filter_mergeSort_tied (le : α → α → Bool)
    (htrans : ∀ a b c, le a b → le b c → le a c)
    (htotal : ∀ a b, le a b || le b a)
    (q : α → Bool) (htied : ∀ a b, q a → q b → le a b) (l : List α) :
    (l.mergeSort le).filter q = l.filter q := by
  have hpw : (l.filter q).Pairwise (le · ·) := by
    refine List.pairwise_of_forall_mem_list ?_
    intro a ha b hb
    exact htied a b (List.of_mem_filter ha) (List.of_mem_filter hb)
  have hsub : List.Sublist (l.filter q) (l.mergeSort le) :=
    List.sublist_mergeSort htrans htotal hpw (List.filter_sublist l)
  have hsub2 : List.Sublist ((l.filter q).filter q) ((l.mergeSort le).filter q) :=
    hsub.filter q
  rw [List.filter_filter] at hsub2
  simp only [Bool.and_self] at hsub2
  have hlen : ((l.mergeSort le).filter q).length = (l.filter q).length :=
    ((List.mergeSort_perm l le).filter q).length_eq
  exact (hsub2.eq_of_length hlen.symm).symm

/-- The load result of any stored value is pairwise sorted by the
comparator. -/
theorem loadAll_pairwise (store : Option Raw) :
    (loadAllCheckins store).Pairwise (dateKeyLE · ·) := by
  match store with
  | none => exact List.Pairwise.nil
  | some .junk => exact List.Pairwise.nil
  | some (.json .null) => exact List.Pairwise.nil
  | some (.json (.bool b)) => exact List.Pairwise.nil
  | some (.json (.num q)) => exact List.Pairwise.nil
  | some (.json (.str s)) => exact List.Pairwise.nil
  | some (.json (.obj fields)) => exact List.Pairwise.nil
  | some (.json (.arr items)) =>
    exact List.sorted_mergeSort dateKeyLE_trans dateKeyLE_total _

/-- Sorting a load result changes nothing. -/
theorem sortByDateKey_loadAll (store : Option Raw) :
    sortByDateKey (loadAllCheckins store) = loadAllCheckins store :=
  List.mergeSort_of_sorted (loadAll_pairwise store)

/-! ### Replace-or-append helpers for the upsert path -/

/-- Replacing the first match makes the replacement the first match of the
result. -/
theorem set_findIdx_filter_head (p : α → Bool) (next : α) (hq : p next = true) :
    ∀ (l : List α) (i : Nat), l.findIdx? p = some i →
      ((l.set i next).filter p).head? = some next := by
  intro l
  induction l with
  | nil => intro i h; simp at h
  | cons a as ih =>
    intro i h
    rw [List.findIdx?_cons] at h
    by_cases ha : p a = true
    · rw [if_pos ha] at h
      obtain rfl : i = 0 := by simpa using h.symm
      rw [List.set_cons_zero, List.filter_cons_of_pos hq]
      rfl
    · rw [if_neg ha, List.findIdx?_succ] at h
      rw [Option.map_eq_some'] at h
      obtain ⟨j, hj, rfl⟩ := h
      rw [List.set_cons_succ, List.filter_cons_of_neg (by simpa using ha)]
      exact ih j hj

/-- Replacing the unique match makes the replacement the unique match of the
result. -/
theorem set_findIdx_filter_single (p : α → Bool) (next : α) (hq : p next = true) :
    ∀ (l : List α) (i : Nat), l.findIdx? p = some i → (l.filter p).length ≤ 1 →
      (l.set i next).filter p = [next] := by
  intro l
  induction l with
  | nil => intro i h _; simp at h
  | cons a as ih =>
    intro i h hlen
    rw [List.findIdx?_cons] at h
    by_cases ha : p a = true
    · rw [if_pos ha] at h
      obtain rfl : i = 0 := by simpa using h.symm
      rw [List.filter_cons_of_pos ha, List.length_cons] at hlen
      have hnil : as.filter p = [] := List.eq_nil_of_length_eq_zero (by omega)
      rw [List.set_cons_zero, List.filter_cons_of_pos hq, hnil]
    · rw [if_neg ha, List.findIdx?_succ] at h
      rw [Option.map_eq_some'] at h
      obtain ⟨j, hj, rfl⟩ := h
      rw [List.filter_cons_of_neg (by simpa using ha)] at hlen
      rw [List.set_cons_succ, List.filter_cons_of_neg (by simpa using ha)]
      exact ih j hj hlen

/-- Appending after no match makes the appended element the unique match. -/
theorem append_findIdx_none_filter (p : α → Bool) (next : α) (hq : p next = true)
    (l : List α) (h : l.findIdx? p = none) : (l ++ [next]).filter p = [next] := by
  have hnil : l.filter p = [] := by
    rw [List.filter_eq_nil_iff]
    intro a ha
    simp [List.findIdx?_eq_none_iff.mp h a ha]
  rw [List.filter_append, hnil, List.nil_append, List.filter_cons_of_pos hq]
  rfl

/-- Setting a position to the value it already holds changes nothing. -/
theorem set_getElem_same : ∀ (l : List α) (i : Nat) (a : α), l[i]? = some a → l.set i a = l
  | [], i, _, h => by simp at h
  | x :: xs, 0, a, h => by
    obtain rfl : x = a := by simpa using h
    rw [List.set_cons_zero]
  | x :: xs, i + 1, a, h => by
    rw [List.getElem?_cons_succ] at h
    rw [List.set_cons_succ, set_getElem_same xs i a h]

/-- A list with pairwise distinct date keys has at most one record with a
given key. -/
theorem filter_key_length_le_one (k : String) : ∀ l : List DailyCheckin,
    (l.map DailyCheckin.dateKey).Nodup →
    (l.filter (fun c => c.dateKey == k)).length ≤ 1 := by
  intro l
  induction l with
  | nil => intro _; simp
  | cons c cs ih =>
    intro hnd
    rw [List.map_cons, List.nodup_cons] at hnd
    by_cases hc : (c.dateKey == k) = true
    · rw [List.filter_cons, if_pos hc, List.length_cons]
      have hkey : c.dateKey = k := by simpa using hc
      have hnil : cs.filter (fun c => c.dateKey == k) = [] := by
        rw [List.filter_eq_nil_iff]
        intro x hx
        have hne : x.dateKey ≠ c.dateKey := by
          intro he
          exact hnd.1 (he ▸ List.mem_map_of_mem DailyCheckin.dateKey hx)
        simp [hkey ▸ hne]
      rw [hnil]
      simp
    · rw [List.filter_cons, if_neg hc]
      exact ih hnd.2

/-! ### Claim theorems -/

/-- C8: `loadAllCheckins` returns the empty list when the stored value is
absent or unparseable as JSON, silently drops every stored element that does
not have all five required fields with the correct primitive types, and
returns the remaining records sorted ascending by `dateKey`. -/
theorem C8_loadAllCheckins_validation :
    loadAllCheckins none = [] ∧
    loadAllCheckins (some Raw.junk) = [] ∧
    (∀ items : List JsonVal,
      (loadAllCheckins (some (Raw.json (JsonVal.arr items)))).Perm (items.filterMap asCheckin)) ∧
    (∀ store : Option Raw,
      ((loadAllCheckins store).map DailyCheckin.dateKey).Pairwise (fun a b => keyLE a b = true)) ∧
    (∀ v : JsonVal, (asCheckin v).isSome = true ↔
      ∃ fields, v = JsonVal.obj fields ∧
        (∃ s, lookupField fields "dateKey" = some (JsonVal.str s)) ∧
        (∃ q, lookupField fields "energy" = some (JsonVal.num q)) ∧
        (∃ q, lookupField fields "mood" = some (JsonVal.num q)) ∧
        (∃ q, lookupField fields "focus" = some (JsonVal.num q)) ∧
        (∃ q, lookupField fields "updatedAt" = some (JsonVal.num q))) := by
  refine ⟨rfl, rfl, ?_, ?_, ?_⟩
  · intro items
    exact List.mergeSort_perm _ _
  · intro store
    rw [List.pairwise_map]
    exact loadAll_pairwise store
  · intro v
    constructor
    · intro h
      unfold asCheckin at h
      split at h
      · split at h
        · next dk e mo fo up h1 h2 h3 h4 h5 =>
            exact ⟨_, rfl, ⟨dk, h1⟩, ⟨e, h2⟩, ⟨mo, h3⟩, ⟨fo, h4⟩, ⟨up, h5⟩⟩
        · simp at h
      · simp at h
    · rintro ⟨fields, rfl, ⟨s, hs⟩, ⟨q1, h1⟩, ⟨q2, h2⟩, ⟨q3, h3⟩, ⟨q4, h4⟩⟩
      simp [asCheckin, hs, h1, h2, h3, h4]

/-- C9: `loadReminderSettings` returns the defaults (disabled, hour 20,
minute 0, no notification id) when no stored value exists or the stored JSON
fails to parse, and on successful parse clamps a numeric hour into 0 to 23
and a numeric minute into 0 to 59 by truncation toward zero followed by
clamping. -/
theorem C9_loadReminderSettings_defaults_clamp :
    loadReminderSettings none = ⟨false, 20, 0, none⟩ ∧
    loadReminderSettings (some Raw.junk) = ⟨false, 20, 0, none⟩ ∧
    (∀ fields q, lookupField fields "hour" = some (JsonVal.num q) →
      (loadReminderSettings (some (Raw.json (JsonVal.obj fields)))).hour =
        ((min 23 (max 0 (ratTrunc q)) : Int) : Rat)) ∧
    (∀ fields q, lookupField fields "minute" = some (JsonVal.num q) →
      (loadReminderSettings (some (Raw.json (JsonVal.obj fields)))).minute =
        ((min 59 (max 0 (ratTrunc q)) : Int) : Rat)) := by
  refine ⟨rfl, rfl, ?_, ?_⟩
  · intro fields q h
    simp [loadReminderSettings, getField, h, clampInt]
  · intro fields q h
    simp [loadReminderSettings, getField, h, clampInt]

/-- C9 witness: a stored hour of 99 is clamped to 23. -/
theorem C9_witness :
    (loadReminderSettings (some (Raw.json (JsonVal.obj [("hour", JsonVal.num 99)])))).hour =
      ((min 23 (max 0 (ratTrunc 99)) : Int) : Rat) :=
  C9_loadReminderSettings_defaults_clamp.2.2.1 [("hour", JsonVal.num 99)] 99 rfl

/-- Filtering by the negation of a predicate keeps the complement. -/
theorem length_filter_not (f : α → Bool) : ∀ l : List α,
    (l.filter (fun a => !(f a))).length = l.length - (l.filter f).length := by
  intro l
  induction l with
  | nil => rfl
  | cons a as ih =>
    have hle := List.length_filter_le f as
    cases h : f a <;>
      simp [List.filter_cons, h, ih] <;> omega

/-- Purge characterization: the returned count is the number of records
failing the cutoff comparison, the surviving collection is exactly the
records passing it, and a write happens exactly when the count is
nonzero. -/
theorem purge_spec (days today : Int) (store : Option Raw) :
    (purgeCheckinsOlderThan days today store).removed =
      ((loadAllCheckins store).filter
        (fun c => !(dateGE (localDateFromDateKey c.dateKey) (purgeCutoff days today)))).length ∧
    loadAllCheckins (purgeCheckinsOlderThan days today store).store =
      (loadAllCheckins store).filter
        (fun c => dateGE (localDateFromDateKey c.dateKey) (purgeCutoff days today)) ∧
    ((purgeCheckinsOlderThan days today store).didWrite = false ↔
      (purgeCheckinsOlderThan days today store).removed = 0) ∧
    ((purgeCheckinsOlderThan days today store).didWrite = false →
      (purgeCheckinsOlderThan days today store).store = store) := by
  set all := loadAllCheckins store with hall
  by_cases h0 : all.length = 0
  · have hnil : all = [] := List.eq_nil_of_length_eq_zero h0
    have hres : purgeCheckinsOlderThan days today store = ⟨0, store, false⟩ := by
      simp [purgeCheckinsOlderThan, ← hall, h0]
    rw [hres]
    refine ⟨?_, ?_, by simp, fun _ => rfl⟩
    · simp [hnil]
    · simp [← hall, hnil]
  · by_cases h1 :
      (all.filter
        (fun c => dateGE (localDateFromDateKey c.dateKey) (purgeCutoff days today))).length =
        all.length
    · have hkeep :
          all.filter
            (fun c => dateGE (localDateFromDateKey c.dateKey) (purgeCutoff days today)) = all :=
        (List.filter_sublist all).eq_of_length h1
      have hres : purgeCheckinsOlderThan days today store = ⟨0, store, false⟩ := by
        simp only [purgeCheckinsOlderThan, ← hall, if_neg h0]
        rw [if_pos h1]
      rw [hres]
      refine ⟨?_, ?_, by simp, fun _ => rfl⟩
      · have hq :
            all.filter (fun c =>
              !(dateGE (localDateFromDateKey c.dateKey) (purgeCutoff days today))) = [] := by
          rw [List.filter_eq_nil_iff]
          intro a ha
          simp [List.filter_eq_self.mp hkeep a ha]
        simp [hq]
      · simp [← hall, hkeep]
    · have hres : purgeCheckinsOlderThan days today store =
          ⟨all.length -
              (all.filter
                (fun c => dateGE (localDateFromDateKey c.dateKey) (purgeCutoff days today))).length,
            some (saveAllCheckins
              (all.filter
                (fun c => dateGE (localDateFromDateKey c.dateKey) (purgeCutoff days today)))),
            true⟩ := by
        simp only [purgeCheckinsOlderThan, ← hall, if_neg h0]
        rw [if_neg h1]
      have hlt :
          (all.filter
            (fun c => dateGE (localDateFromDateKey c.dateKey) (purgeCutoff days today))).length <
            all.length :=
        Nat.lt_of_le_of_ne (List.length_filter_le _ all) h1
      rw [hres]
      have hsorted :
          (all.filter
            (fun c => dateGE (localDateFromDateKey c.dateKey) (purgeCutoff days today))).Pairwise
            (dateKeyLE · ·) :=
        (loadAll_pairwise store).filter _
      have hs :
          sortByDateKey
            (all.filter
              (fun c => dateGE (localDateFromDateKey c.dateKey) (purgeCutoff days today))) =
            all.filter
              (fun c => dateGE (localDateFromDateKey c.dateKey) (purgeCutoff days today)) :=
        List.mergeSort_of_sorted hsorted
      refine ⟨?_, ?_, ?_, fun hw => absurd hw (by simp)⟩
      · rw [length_filter_not]
      · rw [saveAllCheckins, loadAll_encode]
        simp only [hs]
      · constructor
        · intro hw; exact absurd hw (by simp)
        · intro hr; simp only at hr; omega

/-- C1 (amended): `purgeCheckinsOlderThan` removes exactly the stored records
whose parsed local date fails the comparison with the cutoff (those strictly
before the cutoff, and those whose date key parses to an invalid date),
returns the number of removed records, performs no storage write when that
number is zero, and a second consecutive run removes nothing and writes
nothing. -/
theorem C1_purge_retention_amended (days today : Int) (store : Option Raw) :
    (purgeCheckinsOlderThan days today store).removed =
      ((loadAllCheckins store).filter
        (fun c => !(dateGE (localDateFromDateKey c.dateKey) (purgeCutoff days today)))).length ∧
    loadAllCheckins (purgeCheckinsOlderThan days today store).store =
      (loadAllCheckins store).filter
        (fun c => dateGE (localDateFromDateKey c.dateKey) (purgeCutoff days today)) ∧
    ((purgeCheckinsOlderThan days today store).removed = 0 →
      (purgeCheckinsOlderThan days today store).store = store ∧
      (purgeCheckinsOlderThan days today store).didWrite = false) ∧
    (purgeCheckinsOlderThan days today
        (purgeCheckinsOlderThan days today store).store).removed = 0 ∧
    (purgeCheckinsOlderThan days today
        (purgeCheckinsOlderThan days today store).store).didWrite = false := by
  obtain ⟨hcount, hload, hiff, hstore⟩ := purge_spec days today store
  obtain ⟨hcount2, hload2, hiff2, hstore2⟩ :=
    purge_spec days today (purgeCheckinsOlderThan days today store).store
  have hzero : (purgeCheckinsOlderThan days today
      (purgeCheckinsOlderThan days today store).store).removed = 0 := by
    rw [hcount2, hload]
    rw [List.filter_eq_nil_iff.mpr, List.length_nil]
    intro a ha
    have := (List.mem_filter.mp ha).2
    simp_all
  refine ⟨hcount, hload, ?_, hzero, hiff2.mpr hzero⟩
  intro hr0
  exact ⟨hstore (hiff.mpr hr0), hiff.mpr hr0⟩

/-- C1 counterexample: with a stored record whose date key parses to an
invalid date, `purgeCheckinsOlderThan 90` reports one removed record and
performs a write, although no stored record has a local date strictly before
the cutoff. -/
theorem C1_purge_counterexample :
    (purgeCheckinsOlderThan 90 20000 (some (encodeCheckins [⟨"x", 1, 1, 1, 0⟩]))).removed = 1 ∧
    ((loadAllCheckins (some (encodeCheckins [⟨"x", 1, 1, 1, 0⟩]))).filter
      (fun c => dateLT (localDateFromDateKey c.dateKey) (purgeCutoff 90 20000))).length = 0 ∧
    (purgeCheckinsOlderThan 90 20000 (some (encodeCheckins [⟨"x", 1, 1, 1, 0⟩]))).didWrite =
      true := by
  have hload : loadAllCheckins (some (encodeCheckins [⟨"x", 1, 1, 1, 0⟩])) =
      [⟨"x", 1, 1, 1, 0⟩] := by
    rw [loadAll_encode]
    simp [sortByDateKey]
  refine ⟨?_, ?_, ?_⟩
  · simp only [purgeCheckinsOlderThan, hload]
    decide
  · rw [hload]
    decide
  · simp only [purgeCheckinsOlderThan, hload]
    decide

/-- C10: `purgeCheckinsOlderThan` clamps its days argument up to 1: for any
days value at most 1 the run coincides with a run at 1 day and the cutoff is
today itself, so every stored record with a valid local date before today is
removed and a record dated today is kept; for every days value the cutoff
never lies in the future. -/
theorem C10_purge_days_clamped (days today : Int) (store : Option Raw) (h : days ≤ 1) :
    purgeCheckinsOlderThan days today store = purgeCheckinsOlderThan 1 today store ∧
    purgeCutoff days today = today ∧
    (∀ days2 : Int, purgeCutoff days2 today ≤ today) ∧
    (∀ c ∈ loadAllCheckins store, ∀ d : Int, localDateFromDateKey c.dateKey = some d →
      d < today → c ∉ loadAllCheckins (purgeCheckinsOlderThan days today store).store) ∧
    (∀ c ∈ loadAllCheckins store, localDateFromDateKey c.dateKey = some today →
      c ∈ loadAllCheckins (purgeCheckinsOlderThan days today store).store) := by
  have hmax : max 1 days = 1 := max_eq_left h
  have hcut : purgeCutoff days today = today := by
    simp [purgeCutoff, hmax]
  refine ⟨?_, hcut, ?_, ?_, ?_⟩
  · have hsame : purgeCutoff days today = purgeCutoff 1 today := by
      simp [purgeCutoff, hmax]
    simp only [purgeCheckinsOlderThan, hsame]
  · intro days2
    have h1 : (1 : Int) ≤ max 1 days2 := le_max_left 1 days2
    simp only [purgeCutoff]
    omega
  · intro c hc d hd hlt
    rw [(purge_spec days today store).2.1, List.mem_filter]
    rintro ⟨-, hpc⟩
    rw [hd, hcut] at hpc
    simp only [dateGE, decide_eq_true_eq] at hpc
    omega
  · intro c hc hd
    rw [(purge_spec days today store).2.1, List.mem_filter]
    refine ⟨hc, ?_⟩
    rw [hd, hcut]
    simp [dateGE]

/-- C10 witness: a purge with a zero days argument on a store holding
yesterday's and today's records keeps today's record, where today is
2024-01-06. -/
theorem C10_witness :
    ⟨"2024-01-06", 5, 5, 5, 0⟩ ∈ loadAllCheckins
      ((purgeCheckinsOlderThan 0 (daysFromCivil 2024 1 6)
        (some (encodeCheckins
          [⟨"2024-01-05", 2, 2, 2, 0⟩, ⟨"2024-01-06", 5, 5, 5, 0⟩]))).store) := by
  have h := (C10_purge_days_clamped 0 (daysFromCivil 2024 1 6)
    (some (encodeCheckins [⟨"2024-01-05", 2, 2, 2, 0⟩, ⟨"2024-01-06", 5, 5, 5, 0⟩]))
    (by decide)).2.2.2.2
  refine h ⟨"2024-01-06", 5, 5, 5, 0⟩ ?_ (by decide)
  rw [loadAll_encode]
  have hsorted : sortByDateKey [⟨"2024-01-05", 2, 2, 2, 0⟩, ⟨"2024-01-06", 5, 5, 5, 0⟩] =
      [⟨"2024-01-05", 2, 2, 2, 0⟩, ⟨"2024-01-06", 5, 5, 5, 0⟩] := by
    refine List.mergeSort_of_sorted ?_
    refine List.pairwise_cons.mpr ⟨?_, List.pairwise_singleton _ _⟩
    intro b hb
    rw [List.mem_singleton] at hb
    subst hb
    decide
  rw [hsorted]
  simp

/-- Elements matching a fixed date key are pairwise tied under the
comparator. -/
theorem tied_on_key (k : String) (a b : DailyCheckin)
    (ha : (a.dateKey == k) = true) (hb : (b.dateKey == k) = true) : dateKeyLE a b = true := by
  have ha2 : a.dateKey = k := by simpa using ha
  have hb2 : b.dateKey = k := by simpa using hb
  exact dateKeyLE_of_eq (ha2.trans hb2.symm)

/-- Looking up the upserted key after an upsert finds the new record. -/
theorem load_after_upsert (values : UpsertValues) (nowDay : Int) (nowMs : Rat)
    (store : Option Raw) :
    loadCheckinForDate (getLocalDateKey (values.date.getD nowDay))
      (upsertTodayCheckin values nowDay nowMs store).2 =
      some ⟨getLocalDateKey (values.date.getD nowDay),
        values.energy, values.mood, values.focus, nowMs⟩ := by
  have hq : ((⟨getLocalDateKey (values.date.getD nowDay), values.energy, values.mood,
      values.focus, nowMs⟩ : DailyCheckin).dateKey ==
        getLocalDateKey (values.date.getD nowDay)) = true := by simp
  cases hidx : (loadAllCheckins store).findIdx?
      (fun c => c.dateKey == getLocalDateKey (values.date.getD nowDay)) with
  | none =>
    have hstep : (upsertTodayCheckin values nowDay nowMs store).2 =
        some (encodeCheckins (loadAllCheckins store ++
          [⟨getLocalDateKey (values.date.getD nowDay), values.energy, values.mood,
            values.focus, nowMs⟩])) := by
      simp only [upsertTodayCheckin, hidx]
    rw [hstep, loadCheckinForDate, loadAll_encode, sortByDateKey, find?_eq_head?_filter,
      filter_mergeSort_tied dateKeyLE dateKeyLE_trans dateKeyLE_total _
        (tied_on_key (getLocalDateKey (values.date.getD nowDay))),
      append_findIdx_none_filter
        (fun c : DailyCheckin => c.dateKey == getLocalDateKey (values.date.getD nowDay))
        _ hq _ hidx]
    rfl
  | some i =>
    have hstep : (upsertTodayCheckin values nowDay nowMs store).2 =
        some (encodeCheckins ((loadAllCheckins store).set i
          ⟨getLocalDateKey (values.date.getD nowDay), values.energy, values.mood,
            values.focus, nowMs⟩)) := by
      simp only [upsertTodayCheckin, hidx]
    rw [hstep, loadCheckinForDate, loadAll_encode, sortByDateKey, find?_eq_head?_filter,
      filter_mergeSort_tied dateKeyLE dateKeyLE_trans dateKeyLE_total _
        (tied_on_key (getLocalDateKey (values.date.getD nowDay))),
      set_findIdx_filter_head
        (fun c : DailyCheckin => c.dateKey == getLocalDateKey (values.date.getD nowDay))
        _ hq _ i hidx]

/-- C2: upserting values for a date and then loading the same date key
returns a record carrying exactly those values, with an `updatedAt` at least
the clock value at the start of the call. -/
theorem C2_upsert_then_load (e m f : Rat) (date nowDay : Int) (nowMs callTime : Rat)
    (h : callTime ≤ nowMs) (store : Option Raw) :
    ∃ r : DailyCheckin,
      loadCheckinForDate (getLocalDateKey date)
        (upsertTodayCheckin ⟨e, m, f, some date⟩ nowDay nowMs store).2 = some r ∧
      r.energy = e ∧ r.mood = m ∧ r.focus = f ∧ callTime ≤ r.updatedAt := by
  refine ⟨⟨getLocalDateKey date, e, m, f, nowMs⟩, ?_, rfl, rfl, rfl, h⟩
  have hload := load_after_upsert ⟨e, m, f, some date⟩ nowDay nowMs store
  simpa using hload

/-- C2 witness: upserting energy 4, mood 6, focus 8 for 2024-03-10 into an
empty store and loading that key returns those values. -/
theorem C2_witness :
    ∃ r : DailyCheckin,
      loadCheckinForDate (getLocalDateKey (daysFromCivil 2024 3 10))
        (upsertTodayCheckin ⟨4, 6, 8, some (daysFromCivil 2024 3 10)⟩ 0 1000 none).2 = some r ∧
      r.energy = 4 ∧ r.mood = 6 ∧ r.focus = 8 ∧ (1000 : Rat) ≤ r.updatedAt :=
  C2_upsert_then_load 4 6 8 (daysFromCivil 2024 3 10) 0 1000 1000 le_rfl none

/-- Filtering a date key commutes with the stable sort. -/
theorem filter_sortByDateKey_key (k : String) (l : List DailyCheckin) :
    (sortByDateKey l).filter (fun c => c.dateKey == k) =
      l.filter (fun c => c.dateKey == k) :=
  filter_mergeSort_tied dateKeyLE dateKeyLE_trans dateKeyLE_total _ (tied_on_key k) l

/-- The per-date uniqueness invariant can be read off the load result. -/
theorem keysNodup_iff_loadAll (store : Option Raw) :
    KeysNodup store ↔ ((loadAllCheckins store).map DailyCheckin.dateKey).Nodup := by
  match store with
  | none => exact Iff.rfl
  | some .junk => exact Iff.rfl
  | some (.json .null) => exact Iff.rfl
  | some (.json (.bool b)) => exact Iff.rfl
  | some (.json (.num q)) => exact Iff.rfl
  | some (.json (.str s)) => exact Iff.rfl
  | some (.json (.obj fields)) => exact Iff.rfl
  | some (.json (.arr items)) =>
    have hperm : (loadAllCheckins (some (.json (.arr items)))).Perm
        (persistedCheckins (some (.json (.arr items)))) :=
      List.mergeSort_perm _ _
    exact ⟨fun h => h.perm (hperm.map DailyCheckin.dateKey).symm,
      fun h => h.perm (hperm.map DailyCheckin.dateKey)⟩

/-- An upsert preserves the per-date uniqueness invariant. -/
theorem upsert_preserves_keysNodup (values : UpsertValues) (nowDay : Int) (nowMs : Rat)
    (store : Option Raw) (h : KeysNodup store) :
    KeysNodup (upsertTodayCheckin values nowDay nowMs store).2 := by
  have hall : ((loadAllCheckins store).map DailyCheckin.dateKey).Nodup :=
    (keysNodup_iff_loadAll store).mp h
  cases hidx : (loadAllCheckins store).findIdx?
      (fun c => c.dateKey == getLocalDateKey (values.date.getD nowDay)) with
  | some i =>
    have hstep : (upsertTodayCheckin values nowDay nowMs store).2 =
        some (encodeCheckins ((loadAllCheckins store).set i
          ⟨getLocalDateKey (values.date.getD nowDay), values.energy, values.mood,
            values.focus, nowMs⟩)) := by
      simp only [upsertTodayCheckin, hidx]
    rw [hstep]
    unfold KeysNodup
    rw [persisted_encode, List.map_set]
    obtain ⟨hlt, hpi, -⟩ := List.findIdx?_eq_some_iff_getElem.mp hidx
    have hkey : (loadAllCheckins store)[i].dateKey =
        getLocalDateKey (values.date.getD nowDay) := by simpa using hpi
    have hset : ((loadAllCheckins store).map DailyCheckin.dateKey).set i
        (getLocalDateKey (values.date.getD nowDay)) =
        (loadAllCheckins store).map DailyCheckin.dateKey := by
      refine set_getElem_same _ i _ ?_
      rw [List.getElem?_map, List.getElem?_eq_getElem hlt]
      simp [hkey]
    rw [hset]
    exact hall
  | none =>
    have hstep : (upsertTodayCheckin values nowDay nowMs store).2 =
        some (encodeCheckins ((loadAllCheckins store) ++
          [⟨getLocalDateKey (values.date.getD nowDay), values.energy, values.mood,
            values.focus, nowMs⟩])) := by
      simp only [upsertTodayCheckin, hidx]
    rw [hstep]
    unfold KeysNodup
    rw [persisted_encode, List.map_append]
    rw [List.nodup_append]
    refine ⟨hall, List.nodup_singleton _, ?_⟩
    intro x hx hx2
    simp only [List.map_cons, List.map_nil, List.mem_singleton] at hx2
    obtain ⟨c, hc, hck⟩ := List.mem_map.mp hx
    have hfail := List.findIdx?_eq_none_iff.mp hidx c hc
    have hckey : c.dateKey = getLocalDateKey (values.date.getD nowDay) := hck.trans hx2
    simp [hckey] at hfail

/-- A purge preserves the per-date uniqueness invariant. -/
theorem purge_preserves_keysNodup (days today : Int) (store : Option Raw)
    (h : KeysNodup store) : KeysNodup (purgeCheckinsOlderThan days today store).store := by
  rw [keysNodup_iff_loadAll, (purge_spec days today store).2.1]
  have hall : ((loadAllCheckins store).map DailyCheckin.dateKey).Nodup :=
    (keysNodup_iff_loadAll store).mp h
  exact hall.sublist ((List.filter_sublist _).map DailyCheckin.dateKey)

/-- After an upsert, the upserted key identifies exactly the new record in
the load result, provided the store satisfied the uniqueness invariant. -/
theorem upsert_filter_key (values : UpsertValues) (nowDay : Int) (nowMs : Rat)
    (store : Option Raw) (h : KeysNodup store) :
    (loadAllCheckins (upsertTodayCheckin values nowDay nowMs store).2).filter
      (fun c => c.dateKey == getLocalDateKey (values.date.getD nowDay)) =
      [⟨getLocalDateKey (values.date.getD nowDay), values.energy, values.mood,
        values.focus, nowMs⟩] := by
  have hall : ((loadAllCheckins store).map DailyCheckin.dateKey).Nodup :=
    (keysNodup_iff_loadAll store).mp h
  have hsingle := filter_key_length_le_one (getLocalDateKey (values.date.getD nowDay))
    (loadAllCheckins store) hall
  have hq : ((⟨getLocalDateKey (values.date.getD nowDay), values.energy, values.mood,
      values.focus, nowMs⟩ : DailyCheckin).dateKey ==
        getLocalDateKey (values.date.getD nowDay)) = true := by simp
  cases hidx : (loadAllCheckins store).findIdx?
      (fun c => c.dateKey == getLocalDateKey (values.date.getD nowDay)) with
  | some i =>
    have hstep : (upsertTodayCheckin values nowDay nowMs store).2 =
        some (encodeCheckins ((loadAllCheckins store).set i
          ⟨getLocalDateKey (values.date.getD nowDay), values.energy, values.mood,
            values.focus, nowMs⟩)) := by
      simp only [upsertTodayCheckin, hidx]
    rw [hstep, loadAll_encode, filter_sortByDateKey_key]
    exact set_findIdx_filter_single
      (fun c : DailyCheckin => c.dateKey == getLocalDateKey (values.date.getD nowDay))
      _ hq _ i hidx hsingle
  | none =>
    have hstep : (upsertTodayCheckin values nowDay nowMs store).2 =
        some (encodeCheckins ((loadAllCheckins store) ++
          [⟨getLocalDateKey (values.date.getD nowDay), values.energy, values.mood,
            values.focus, nowMs⟩])) := by
      simp only [upsertTodayCheckin, hidx]
    rw [hstep, loadAll_encode, filter_sortByDateKey_key]
    exact append_findIdx_none_filter
      (fun c : DailyCheckin => c.dateKey == getLocalDateKey (values.date.getD nowDay))
      _ hq _ hidx

/-- C3: every mutating operation of the check-in store preserves the
at-most-one-record-per-date-key invariant; upserting the same date twice
leaves exactly one record for that key, carrying the second call's values;
and in the two-date scenario an upsert of an existing date leaves the record
count at two with the new values readable. -/
theorem C3_unique_dateKey_invariant :
    (∀ (values : UpsertValues) (nowDay : Int) (nowMs : Rat) (store : Option Raw),
      KeysNodup store → KeysNodup (upsertTodayCheckin values nowDay nowMs store).2) ∧
    (∀ (days today : Int) (store : Option Raw),
      KeysNodup store → KeysNodup (purgeCheckinsOlderThan days today store).store) ∧
    (∀ store : Option Raw, KeysNodup (clearAllCheckins store)) ∧
    (∀ (e1 m1 f1 e2 m2 f2 : Rat) (date : Option Int) (nowDay : Int) (now1 now2 : Rat)
      (store : Option Raw), KeysNodup store →
      (loadAllCheckins (upsertTodayCheckin ⟨e2, m2, f2, date⟩ nowDay now2
          (upsertTodayCheckin ⟨e1, m1, f1, date⟩ nowDay now1 store).2).2).filter
        (fun c => c.dateKey == getLocalDateKey (date.getD nowDay)) =
        [⟨getLocalDateKey (date.getD nowDay), e2, m2, f2, now2⟩]) ∧
    loadCheckinForDate "2024-01-01"
        (upsertTodayCheckin ⟨9, 5, 5, some (daysFromCivil 2024 1 1)⟩ 0 1000
          (some (encodeCheckins
            [⟨"2024-01-01", 3, 3, 3, 0⟩, ⟨"2024-01-02", 7, 7, 7, 0⟩]))).2 =
      some ⟨"2024-01-01", 9, 5, 5, 1000⟩ ∧
    (loadAllCheckins
        (upsertTodayCheckin ⟨9, 5, 5, some (daysFromCivil 2024 1 1)⟩ 0 1000
          (some (encodeCheckins
            [⟨"2024-01-01", 3, 3, 3, 0⟩, ⟨"2024-01-02", 7, 7, 7, 0⟩]))).2).length = 2 := by
  have hload0 : loadAllCheckins (some (encodeCheckins
      [⟨"2024-01-01", 3, 3, 3, 0⟩, ⟨"2024-01-02", 7, 7, 7, 0⟩])) =
      [⟨"2024-01-01", 3, 3, 3, 0⟩, ⟨"2024-01-02", 7, 7, 7, 0⟩] := by
    rw [loadAll_encode]
    refine List.mergeSort_of_sorted ?_
    refine List.pairwise_cons.mpr ⟨?_, List.pairwise_singleton _ _⟩
    intro b hb
    rw [List.mem_singleton] at hb
    subst hb
    decide
  have hkey : getLocalDateKey ((some (daysFromCivil 2024 1 1)).getD 0) = "2024-01-01" := by
    decide
  have hidx : ([⟨"2024-01-01", 3, 3, 3, 0⟩,
      ⟨"2024-01-02", 7, 7, 7, 0⟩] : List DailyCheckin).findIdx?
      (fun c => c.dateKey == getLocalDateKey ((some (daysFromCivil 2024 1 1)).getD 0)) =
      some 0 := by
    rw [hkey]
    decide
  refine ⟨upsert_preserves_keysNodup, purge_preserves_keysNodup, ?_, ?_, ?_, ?_⟩
  · intro store
    simp [clearAllCheckins, KeysNodup, persistedCheckins]
  · intro e1 m1 f1 e2 m2 f2 date nowDay now1 now2 store h
    exact upsert_filter_key ⟨e2, m2, f2, date⟩ nowDay now2 _
      (upsert_preserves_keysNodup ⟨e1, m1, f1, date⟩ nowDay now1 store h)
  · have hfind := load_after_upsert ⟨9, 5, 5, some (daysFromCivil 2024 1 1)⟩ 0 1000
      (some (encodeCheckins [⟨"2024-01-01", 3, 3, 3, 0⟩, ⟨"2024-01-02", 7, 7, 7, 0⟩]))
    rw [hkey] at hfind
    exact hfind
  · have hstep : (upsertTodayCheckin ⟨9, 5, 5, some (daysFromCivil 2024 1 1)⟩ 0 1000
        (some (encodeCheckins
          [⟨"2024-01-01", 3, 3, 3, 0⟩, ⟨"2024-01-02", 7, 7, 7, 0⟩]))).2 =
        some (encodeCheckins
          ([⟨"2024-01-01", 3, 3, 3, 0⟩, ⟨"2024-01-02", 7, 7, 7, 0⟩].set 0
            ⟨getLocalDateKey ((some (daysFromCivil 2024 1 1)).getD 0), 9, 5, 5, 1000⟩)) := by
      simp only [upsertTodayCheckin, hload0, hidx]
    rw [hstep, loadAll_encode]
    simp [sortByDateKey]

/-- C3 witness: an upsert into the empty store preserves the uniqueness
invariant. -/
theorem C3_witness : KeysNodup (upsertTodayCheckin ⟨1, 2, 3, some 0⟩ 0 0 none).2 :=
  C3_unique_dateKey_invariant.1 ⟨1, 2, 3, some 0⟩ 0 0 none
    (by simp [KeysNodup, persistedCheckins])

/-- A purge that writes stores the kept records sorted. -/
theorem purge_write_store (days today : Int) (store : Option Raw)
    (hw : (purgeCheckinsOlderThan days today store).didWrite = true) :
    (purgeCheckinsOlderThan days today store).store =
      some (saveAllCheckins ((loadAllCheckins store).filter
        (fun c => dateGE (localDateFromDateKey c.dateKey) (purgeCutoff days today)))) := by
  by_cases h0 : (loadAllCheckins store).length = 0
  · exfalso
    simp [purgeCheckinsOlderThan, h0] at hw
  · by_cases h1 :
      ((loadAllCheckins store).filter
        (fun c => dateGE (localDateFromDateKey c.dateKey) (purgeCutoff days today))).length =
        (loadAllCheckins store).length
    · exfalso
      simp only [purgeCheckinsOlderThan, if_neg h0] at hw
      rw [if_pos h1] at hw
      simp at hw
    · simp only [purgeCheckinsOlderThan, if_neg h0]
      rw [if_neg h1]

/-- C7 (amended): `loadAllCheckins` always returns records sorted ascending
by date key, and a purge that writes persists the collection sorted; an
upsert, however, persists the loaded collection with the record replaced in
place or appended, so the persisted array is sorted only when the upserted
key already existed or is at least every stored key. -/
theorem C7_sorted_storage_amended :
    (∀ store : Option Raw,
      ((loadAllCheckins store).map DailyCheckin.dateKey).Pairwise
        (fun a b => keyLE a b = true)) ∧
    (∀ (days today : Int) (store : Option Raw),
      (purgeCheckinsOlderThan days today store).didWrite = true →
      ((persistedCheckins (purgeCheckinsOlderThan days today store).store).map
        DailyCheckin.dateKey).Pairwise (fun a b => keyLE a b = true)) ∧
    (∀ (values : UpsertValues) (nowDay : Int) (nowMs : Rat) (store : Option Raw),
      (getLocalDateKey (values.date.getD nowDay) ∈
          (loadAllCheckins store).map DailyCheckin.dateKey ∨
        ∀ k ∈ (loadAllCheckins store).map DailyCheckin.dateKey,
          keyLE k (getLocalDateKey (values.date.getD nowDay)) = true) →
      ((persistedCheckins (upsertTodayCheckin values nowDay nowMs store).2).map
        DailyCheckin.dateKey).Pairwise (fun a b => keyLE a b = true)) := by
  refine ⟨?_, ?_, ?_⟩
  · intro store
    rw [List.pairwise_map]
    exact loadAll_pairwise store
  · intro days today store hw
    rw [purge_write_store days today store hw, saveAllCheckins, persisted_encode,
      List.pairwise_map]
    exact List.sorted_mergeSort dateKeyLE_trans dateKeyLE_total _
  · intro values nowDay nowMs store hmem
    cases hidx : (loadAllCheckins store).findIdx?
        (fun c => c.dateKey == getLocalDateKey (values.date.getD nowDay)) with
    | some i =>
      have hstep : (upsertTodayCheckin values nowDay nowMs store).2 =
          some (encodeCheckins ((loadAllCheckins store).set i
            ⟨getLocalDateKey (values.date.getD nowDay), values.energy, values.mood,
              values.focus, nowMs⟩)) := by
        simp only [upsertTodayCheckin, hidx]
      rw [hstep, persisted_encode, List.map_set]
      obtain ⟨hlt, hpi, -⟩ := List.findIdx?_eq_some_iff_getElem.mp hidx
      have hset : ((loadAllCheckins store).map DailyCheckin.dateKey).set i
          (getLocalDateKey (values.date.getD nowDay)) =
          (loadAllCheckins store).map DailyCheckin.dateKey := by
        refine set_getElem_same _ i _ ?_
        rw [List.getElem?_map, List.getElem?_eq_getElem hlt]
        simpa using hpi
      rw [hset, List.pairwise_map]
      exact loadAll_pairwise store
    | none =>
      have hstep : (upsertTodayCheckin values nowDay nowMs store).2 =
          some (encodeCheckins ((loadAllCheckins store) ++
            [⟨getLocalDateKey (values.date.getD nowDay), values.energy, values.mood,
              values.focus, nowMs⟩])) := by
        simp only [upsertTodayCheckin, hidx]
      rw [hstep, persisted_encode, List.map_append]
      rw [List.pairwise_append]
      refine ⟨by rw [List.pairwise_map]; exact loadAll_pairwise store,
        by simp, ?_⟩
      intro a ha b hb
      simp only [List.map_cons, List.map_nil, List.mem_singleton] at hb
      subst hb
      rcases hmem with hmem | hmem
      · exfalso
        obtain ⟨c, hc, hck⟩ := List.mem_map.mp hmem
        have := List.findIdx?_eq_none_iff.mp hidx c hc
        simp [hck] at this
      · exact hmem a ha

/-- C7 witness: an upsert into the empty store leaves the persisted keys
sorted. -/
theorem C7_witness :
    ((persistedCheckins (upsertTodayCheckin ⟨1, 1, 1, some 0⟩ 0 0 none).2).map
      DailyCheckin.dateKey).Pairwise (fun a b => keyLE a b = true) :=
  C7_sorted_storage_amended.2.2 ⟨1, 1, 1, some 0⟩ 0 0 none (Or.inr (by simp [loadAllCheckins]))

/-- C7 counterexample: upserting 2024-01-01 into a store holding only
2024-01-02 persists the array in the order 02, 01, which is not ascending by
date key. -/
theorem C7_counterexample :
    (persistedCheckins (upsertTodayCheckin ⟨5, 5, 5, some (daysFromCivil 2024 1 1)⟩ 0 1000
        (some (encodeCheckins [⟨"2024-01-02", 7, 7, 7, 0⟩]))).2).map DailyCheckin.dateKey =
      ["2024-01-02", "2024-01-01"] ∧
    ¬ ((persistedCheckins (upsertTodayCheckin ⟨5, 5, 5, some (daysFromCivil 2024 1 1)⟩ 0 1000
        (some (encodeCheckins [⟨"2024-01-02", 7, 7, 7, 0⟩]))).2).map
        DailyCheckin.dateKey).Pairwise (fun a b => keyLE a b = true) := by
  have hload0 : loadAllCheckins (some (encodeCheckins [⟨"2024-01-02", 7, 7, 7, 0⟩])) =
      [⟨"2024-01-02", 7, 7, 7, 0⟩] := by
    rw [loadAll_encode]
    simp [sortByDateKey]
  have hkey : getLocalDateKey ((some (daysFromCivil 2024 1 1)).getD 0) = "2024-01-01" := by
    decide
  have hidx : ([⟨"2024-01-02", 7, 7, 7, 0⟩] : List DailyCheckin).findIdx?
      (fun c => c.dateKey == getLocalDateKey ((some (daysFromCivil 2024 1 1)).getD 0)) =
      none := by
    rw [hkey]
    decide
  have hstep : (upsertTodayCheckin ⟨5, 5, 5, some (daysFromCivil 2024 1 1)⟩ 0 1000
      (some (encodeCheckins [⟨"2024-01-02", 7, 7, 7, 0⟩]))).2 =
      some (encodeCheckins ([⟨"2024-01-02", 7, 7, 7, 0⟩] ++
        [⟨getLocalDateKey ((some (daysFromCivil 2024 1 1)).getD 0), 5, 5, 5, 1000⟩])) := by
    simp only [upsertTodayCheckin, hload0, hidx]
  rw [hstep, persisted_encode, hkey]
  constructor
  · rfl
  · intro hpw
    have := List.rel_of_pairwise_cons hpw (List.mem_singleton.mpr rfl)
    revert this
    decide

/-- Freshly issued identifiers are never the empty string. -/
theorem freshId_ne_empty (n : Nat) : freshId n ≠ "" := by
  intro h
  have hd := congrArg String.data h
  rw [freshId] at hd
  rw [String.data_append] at hd
  simp at hd

/-- A request scheduled by `scheduleDailyReminder` matches the app
signature. -/
theorem isReminder_new (id : String) (t : Option (Int × Int)) :
    isReminderRequest ⟨id, reminderContent, t⟩ = true := rfl

/-- Truncation is the identity on integral values. -/
theorem ratTrunc_intCast (n : Int) : ratTrunc ((n : Int) : Rat) = n := by
  rw [ratTrunc]
  simp

/-- Clamping keeps an in-range integral hour or minute unchanged. -/
theorem clampInt_intCast (n lo hi : Int) (h1 : lo ≤ n) (h2 : n ≤ hi) :
    clampInt ((n : Int) : Rat) lo hi = n := by
  rw [clampInt, ratTrunc_intCast]
  omega

/-- The cancellation fold removes exactly the requests whose identifier
occurs in the cancelled list. -/
theorem foldl_cancel_scheduled : ∀ (l : List NotificationRequest) (st : NotifState),
    (l.foldl (fun s r => cancelScheduled r.identifier s) st).scheduled =
      st.scheduled.filter (fun r => !(l.any (fun c => r.identifier == c.identifier)))
  | [], st => by simp
  | c :: cs, st => by
    rw [List.foldl_cons, foldl_cancel_scheduled cs (cancelScheduled c.identifier st)]
    rw [cancelScheduled]
    rw [List.filter_filter]
    apply List.filter_congr
    intro r _
    simp only [List.any_cons]
    cases h : r.identifier == c.identifier <;> simp [h]

/-- The cancellation fold does not touch the permission flag or the
identifier counter. -/
theorem foldl_cancel_flags : ∀ (l : List NotificationRequest) (st : NotifState),
    (l.foldl (fun s r => cancelScheduled r.identifier s) st).granted = st.granted ∧
    (l.foldl (fun s r => cancelScheduled r.identifier s) st).nextSeq = st.nextSeq
  | [], st => ⟨rfl, rfl⟩
  | c :: cs, st => by
    rw [List.foldl_cons]
    exact foldl_cancel_flags cs (cancelScheduled c.identifier st)

/-- After `cancelAllReminders` no matching request remains. -/
theorem cancelAll_matches (st : NotifState) :
    (cancelAllReminders st).2.scheduled.filter isReminderRequest = [] := by
  rw [cancelAllReminders]
  rw [foldl_cancel_scheduled]
  rw [List.filter_eq_nil_iff]
  intro r hr
  have hmem := List.mem_filter.mp hr
  intro habs
  have hany : (st.scheduled.filter isReminderRequest).any
      (fun c => r.identifier == c.identifier) = true := by
    refine List.any_eq_true.mpr ⟨r, ?_, by simp⟩
    exact List.mem_filter.mpr ⟨hmem.1, habs⟩
  rw [hany] at hmem
  simp at hmem

/-- `cancelAllReminders` leaves the permission flag and the counter. -/
theorem cancelAll_flags (st : NotifState) :
    (cancelAllReminders st).2.granted = st.granted ∧
    (cancelAllReminders st).2.nextSeq = st.nextSeq :=
  foldl_cancel_flags _ st

/-- Matching requests after a `scheduleDailyReminder` call. -/
theorem schedule_matches (h m : Rat) (st : NotifState) :
    (scheduleDailyReminder h m st).2.scheduled.filter isReminderRequest =
      st.scheduled.filter isReminderRequest ++
        [⟨freshId st.nextSeq, reminderContent,
          some (clampInt h 0 23, clampInt m 0 59)⟩] := by
  rw [scheduleDailyReminder]
  rw [List.filter_append]
  rw [List.filter_cons]
  simp [isReminder_new]

/-- Reconciliation on disabled settings is the identity. -/
theorem reconcile_disabled (settings : ReminderSettings) (st : NotifState)
    (h : settings.enabled = false) :
    reconcileReminderSchedule settings st = (settings, st) := by
  simp [reconcileReminderSchedule, h]

/-- Reconciliation without permission is the identity. -/
theorem reconcile_ungranted (settings : ReminderSettings) (st : NotifState)
    (h : st.granted = false) :
    reconcileReminderSchedule settings st = (settings, st) := by
  simp [reconcileReminderSchedule, h]

/-- Reconciliation with no matching schedule creates one. -/
theorem reconcile_zero (settings : ReminderSettings) (st : NotifState)
    (h1 : settings.enabled = true) (h2 : st.granted = true)
    (h3 : st.scheduled.filter isReminderRequest = []) :
    reconcileReminderSchedule settings st =
      ({ settings with notificationId := some (freshId st.nextSeq) },
        (scheduleDailyReminder settings.hour settings.minute st).2) := by
  simp [reconcileReminderSchedule, h1, h2, h3, scheduleDailyReminder]

/-- Reconciliation with exactly one matching schedule syncs the stored id
when the scheduled identifier is truthy and differs. -/
theorem reconcile_one (settings : ReminderSettings) (st : NotifState)
    (r0 : NotificationRequest)
    (h1 : settings.enabled = true) (h2 : st.granted = true)
    (h3 : st.scheduled.filter isReminderRequest = [r0]) :
    reconcileReminderSchedule settings st =
      (if (!(r0.identifier == "") && !(some r0.identifier == settings.notificationId)) = true
        then ({ settings with notificationId := some r0.identifier }, st)
        else (settings, st)) := by
  simp only [reconcileReminderSchedule, h1, h2, h3]
  simp

/-- Reconciliation with two or more matching schedules cancels them all and
creates a single fresh one. -/
theorem reconcile_many (settings : ReminderSettings) (st : NotifState)
    (h1 : settings.enabled = true) (h2 : st.granted = true)
    (h3 : 2 ≤ (st.scheduled.filter isReminderRequest).length) :
    reconcileReminderSchedule settings st =
      ({ settings with
          notificationId := some (freshId (cancelAllReminders st).2.nextSeq) },
        (scheduleDailyReminder settings.hour settings.minute
          (cancelAllReminders st).2).2) := by
  have hz : ((st.scheduled.filter isReminderRequest).length == 0) = false := by
    rw [beq_eq_false_iff_ne]
    omega
  have ho : ((st.scheduled.filter isReminderRequest).length == 1) = false := by
    rw [beq_eq_false_iff_ne]
    omega
  simp [reconcileReminderSchedule, h1, h2, hz, ho, scheduleDailyReminder]

/-- C4: `reconcileReminderSchedule` by cases: disabled settings and missing
permission return the settings unchanged without touching the platform; with
no matching schedule it creates one at the settings hour and minute and
attaches the new id; with exactly one match it corrects the stored id to the
match's id when it differs, else returns the settings unchanged; with two or
more matches it cancels all matches, creates exactly one fresh schedule and
returns the settings with the new id. Platform identifiers are assumed
nonempty and the settings hour and minute integral and in range, as the
platform and the settings loader guarantee. -/
theorem C4_reconcile_cases (settings : ReminderSettings) (st : NotifState)
    (hids : ∀ r ∈ st.scheduled, r.identifier ≠ "")
    (hh : ∃ n : Int, settings.hour = (n : Rat) ∧ 0 ≤ n ∧ n ≤ 23)
    (hm : ∃ n : Int, settings.minute = (n : Rat) ∧ 0 ≤ n ∧ n ≤ 59) :
    (settings.enabled = false → reconcileReminderSchedule settings st = (settings, st)) ∧
    (st.granted = false → reconcileReminderSchedule settings st = (settings, st)) ∧
    (settings.enabled = true → st.granted = true →
      (st.scheduled.filter isReminderRequest = [] →
        ∃ id hi mi, (reconcileReminderSchedule settings st).1 =
            { settings with notificationId := some id } ∧
          (reconcileReminderSchedule settings st).2.scheduled.filter isReminderRequest =
            [⟨id, reminderContent, some (hi, mi)⟩] ∧
          (hi : Rat) = settings.hour ∧ (mi : Rat) = settings.minute) ∧
      (∀ r0, st.scheduled.filter isReminderRequest = [r0] →
        (reconcileReminderSchedule settings st).2 = st ∧
        ((some r0.identifier ≠ settings.notificationId →
          (reconcileReminderSchedule settings st).1 =
            { settings with notificationId := some r0.identifier }) ∧
        (some r0.identifier = settings.notificationId →
          (reconcileReminderSchedule settings st).1 = settings))) ∧
      (2 ≤ (st.scheduled.filter isReminderRequest).length →
        ∃ id hi mi, (reconcileReminderSchedule settings st).1 =
            { settings with notificationId := some id } ∧
          (reconcileReminderSchedule settings st).2.scheduled.filter isReminderRequest =
            [⟨id, reminderContent, some (hi, mi)⟩] ∧
          (hi : Rat) = settings.hour ∧ (mi : Rat) = settings.minute)) := by
  obtain ⟨nh, hh1, hh2, hh3⟩ := hh
  obtain ⟨nm, hm1, hm2, hm3⟩ := hm
  have hch : clampInt settings.hour 0 23 = nh := by
    rw [hh1]
    exact clampInt_intCast nh 0 23 hh2 hh3
  have hcm : clampInt settings.minute 0 59 = nm := by
    rw [hm1]
    exact clampInt_intCast nm 0 59 hm2 hm3
  refine ⟨fun h => reconcile_disabled settings st h,
    fun h => reconcile_ungranted settings st h, ?_⟩
  intro h1 h2
  refine ⟨?_, ?_, ?_⟩
  · intro h3
    refine ⟨freshId st.nextSeq, nh, nm, ?_, ?_, hh1.symm, hm1.symm⟩
    · rw [reconcile_zero settings st h1 h2 h3]
    · rw [reconcile_zero settings st h1 h2 h3]
      rw [schedule_matches, h3, List.nil_append, hch, hcm]
  · intro r0 h3
    have hr0 : r0.identifier ≠ "" := by
      refine hids r0 ?_
      have : r0 ∈ st.scheduled.filter isReminderRequest := by
        rw [h3]
        exact List.mem_singleton.mpr rfl
      exact (List.mem_filter.mp this).1
    rw [reconcile_one settings st r0 h1 h2 h3]
    by_cases hid : some r0.identifier = settings.notificationId
    · have hcond : (!(r0.identifier == "") && !(some r0.identifier ==
          settings.notificationId)) = false := by
        simp [hid]
      rw [hcond]
      exact ⟨rfl, fun habs => absurd hid habs, fun _ => rfl⟩
    · have hcond : (!(r0.identifier == "") && !(some r0.identifier ==
          settings.notificationId)) = true := by
        simp [hid, hr0]
      rw [hcond]
      exact ⟨rfl, fun _ => rfl, fun habs => absurd habs hid⟩
  · intro h3
    refine ⟨freshId (cancelAllReminders st).2.nextSeq, nh, nm, ?_, ?_, hh1.symm, hm1.symm⟩
    · rw [reconcile_many settings st h1 h2 h3]
    · rw [reconcile_many settings st h1 h2 h3]
      rw [schedule_matches, cancelAll_matches, List.nil_append, hch, hcm]

/-- C4 witness: with permission granted and no schedules, reconciliation of
enabled settings at 9:30 creates one matching schedule at 9:30. -/
theorem C4_witness :
    ∃ id hi mi,
      (reconcileReminderSchedule ⟨true, 9, 30, none⟩ ⟨[], true, 0⟩).1 =
        { enabled := true, hour := 9, minute := 30, notificationId := some id } ∧
      (reconcileReminderSchedule ⟨true, 9, 30, none⟩
          ⟨[], true, 0⟩).2.scheduled.filter isReminderRequest =
        [⟨id, reminderContent, some (hi, mi)⟩] ∧
      (hi : Rat) = (9 : Rat) ∧ (mi : Rat) = (30 : Rat) := by
  have h := C4_reconcile_cases ⟨true, 9, 30, none⟩ ⟨[], true, 0⟩
    (by intro r hr; simp at hr)
    ⟨9, by norm_num⟩ ⟨30, by norm_num⟩
  exact (h.2.2 rfl rfl).1 rfl

/-- C5 (amended): reconciliation reaches a fixpoint after one run (the
second run returns the first run's settings and changes nothing), and when
the settings are enabled and permission is granted, at most one matching
schedule remains after a run; in particular two or more pre-existing
duplicates are collapsed to exactly one. Runs with disabled settings or
without permission leave the platform untouched. -/
theorem C5_reconcile_idempotent_amended (settings : ReminderSettings) (st : NotifState) :
    reconcileReminderSchedule
        (reconcileReminderSchedule settings st).1
        (reconcileReminderSchedule settings st).2 =
      reconcileReminderSchedule settings st ∧
    (settings.enabled = true → st.granted = true →
      ((reconcileReminderSchedule settings st).2.scheduled.filter
        isReminderRequest).length ≤ 1) ∧
    (settings.enabled = true → st.granted = true →
      2 ≤ (st.scheduled.filter isReminderRequest).length →
      ((reconcileReminderSchedule settings st).2.scheduled.filter
        isReminderRequest).length = 1) := by
  by_cases he : settings.enabled = true
  · by_cases hg : st.granted = true
    · cases hfil : st.scheduled.filter isReminderRequest with
      | nil =>
        have hrw := reconcile_zero settings st he hg hfil
        have hmatch1 : (reconcileReminderSchedule settings st).2.scheduled.filter
            isReminderRequest =
            [⟨freshId st.nextSeq, reminderContent,
              some (clampInt settings.hour 0 23, clampInt settings.minute 0 59)⟩] := by
          rw [hrw, schedule_matches, hfil, List.nil_append]
        refine ⟨?_, ?_, ?_⟩
        · have hrw1 : (reconcileReminderSchedule settings st).1 =
              { settings with notificationId := some (freshId st.nextSeq) } := by
            rw [hrw]
          have h2 := reconcile_one (reconcileReminderSchedule settings st).1
            (reconcileReminderSchedule settings st).2
            ⟨freshId st.nextSeq, reminderContent,
              some (clampInt settings.hour 0 23, clampInt settings.minute 0 59)⟩
            (by rw [hrw1]; exact he) (by rw [hrw]; exact hg) hmatch1
          rw [h2, if_neg (by rw [hrw1]; simp)]
        · intro _ _
          rw [hmatch1]
          simp
        · intro _ _ habs
          exact absurd habs (by simp)
      | cons r rs =>
        cases rs with
        | nil =>
          have hrw := reconcile_one settings st r he hg hfil
          have hstun : (reconcileReminderSchedule settings st).2 = st := by
            rw [hrw]
            by_cases hc : (!(r.identifier == "") &&
                !(some r.identifier == settings.notificationId)) = true
            · rw [if_pos hc]
            · rw [if_neg hc]
          refine ⟨?_, ?_, ?_⟩
          · by_cases hc : (!(r.identifier == "") &&
                !(some r.identifier == settings.notificationId)) = true
            · have hrw1 : (reconcileReminderSchedule settings st).1 =
                  { settings with notificationId := some r.identifier } := by
                rw [hrw, if_pos hc]
              have h2 := reconcile_one (reconcileReminderSchedule settings st).1
                (reconcileReminderSchedule settings st).2 r
                (by rw [hrw1]; exact he) (by rw [hstun]; exact hg)
                (by rw [hstun]; exact hfil)
              rw [h2, if_neg (by rw [hrw1]; simp)]
            · have hrw1 : (reconcileReminderSchedule settings st).1 = settings := by
                rw [hrw, if_neg hc]
              have h2 := reconcile_one (reconcileReminderSchedule settings st).1
                (reconcileReminderSchedule settings st).2 r
                (by rw [hrw1]; exact he) (by rw [hstun]; exact hg)
                (by rw [hstun]; exact hfil)
              rw [h2, if_neg (by rw [hrw1]; exact hc)]
          · intro _ _
            rw [hstun, hfil]
            simp
          · intro _ _ habs
            exact absurd habs (by simp)
        | cons r2 rs2 =>
          have hlen : 2 ≤ (st.scheduled.filter isReminderRequest).length := by
            rw [hfil]
            simp only [List.length_cons]
            omega
          have hrw := reconcile_many settings st he hg hlen
          have hmatch1 : (reconcileReminderSchedule settings st).2.scheduled.filter
              isReminderRequest =
              [⟨freshId (cancelAllReminders st).2.nextSeq, reminderContent,
                some (clampInt settings.hour 0 23, clampInt settings.minute 0 59)⟩] := by
            rw [hrw, schedule_matches, cancelAll_matches, List.nil_append]
          refine ⟨?_, ?_, ?_⟩
          · have hrw1 : (reconcileReminderSchedule settings st).1 =
                { settings with
                  notificationId := some (freshId (cancelAllReminders st).2.nextSeq) } := by
              rw [hrw]
            have hgr : (reconcileReminderSchedule settings st).2.granted = true := by
              rw [hrw]
              show (cancelAllReminders st).2.granted = true
              rw [(cancelAll_flags st).1]
              exact hg
            have h2 := reconcile_one (reconcileReminderSchedule settings st).1
              (reconcileReminderSchedule settings st).2
              ⟨freshId (cancelAllReminders st).2.nextSeq, reminderContent,
                some (clampInt settings.hour 0 23, clampInt settings.minute 0 59)⟩
              (by rw [hrw1]; exact he) hgr hmatch1
            rw [h2, if_neg (by rw [hrw1]; simp)]
          · intro _ _
            rw [hmatch1]
            simp
          · intro _ _ _
            rw [hmatch1]
            simp
    · have hg2 : st.granted = false := by
        cases h : st.granted
        · rfl
        · exact absurd h hg
      have hrw := reconcile_ungranted settings st hg2
      refine ⟨?_, fun _ hgt => absurd hgt hg, fun _ hgt => absurd hgt hg⟩
      rw [hrw]
      exact reconcile_ungranted settings st hg2
  · have he2 : settings.enabled = false := by
      cases h : settings.enabled
      · rfl
      · exact absurd h he
    have hrw := reconcile_disabled settings st he2
    refine ⟨?_, fun het => absurd het he, fun het => absurd het he⟩
    rw [hrw]
    exact reconcile_disabled settings st he2

/-- C5 witness: with enabled settings, permission granted and two duplicate
matching schedules, one reconciliation run ends with exactly one matching
schedule. -/
theorem C5_witness :
    ((reconcileReminderSchedule ⟨true, 9, 0, none⟩
        ⟨[⟨"a", reminderContent, some (9, 0)⟩, ⟨"b", reminderContent, some (9, 0)⟩],
          true, 0⟩).2.scheduled.filter isReminderRequest).length = 1 := by
  have h := C5_reconcile_idempotent_amended ⟨true, 9, 0, none⟩
    ⟨[⟨"a", reminderContent, some (9, 0)⟩, ⟨"b", reminderContent, some (9, 0)⟩], true, 0⟩
  exact h.2.2 rfl rfl (by decide)

/-- C5 counterexample: a reconciliation run neither run on disabled settings
nor without permission touches the platform, so two pre-existing duplicate
matching schedules survive the run: the matching-schedule count exceeds one
after a run, and the two-duplicates scenario with `enabled := true` but
permission missing also keeps both. -/
theorem C5_counterexample :
    ((reconcileReminderSchedule ⟨false, 9, 0, none⟩
        ⟨[⟨"a", reminderContent, some (9, 0)⟩, ⟨"b", reminderContent, some (9, 0)⟩],
          true, 0⟩).2.scheduled.filter isReminderRequest).length = 2 ∧
    ((reconcileReminderSchedule ⟨true, 9, 0, none⟩
        ⟨[⟨"a", reminderContent, some (9, 0)⟩, ⟨"b", reminderContent, some (9, 0)⟩],
          false, 0⟩).2.scheduled.filter isReminderRequest).length = 2 := by
  constructor
  · rw [reconcile_disabled _ _ rfl]
    decide
  · rw [reconcile_ungranted _ _ rfl]
    decide
